import Mathlib

/-!
Verification of the tdc_toolkit record decoder, stream parser, coincidence
engine, g2 driver, device poll loop and capture-file header reader.

Each module of the repository is embedded as a namespace of executable Lean
definitions translated from the Python source:

* `Tttr`   – src/python/multiharp_toolkit/tttr_record.py
* `SP`     – src/src/multiharp_toolkit/stream_parser.py (decode loop)
* `CC`     – the CoincidenceCounterState shared verbatim by
             src/python/multiharp_toolkit/coincidence_counter.py and
             src/src/multiharp_toolkit/coincidence_counter.py
* `PyCC`   – the CoincidenceCounter of src/python/multiharp_toolkit
* `SrcCC`  – the CoincidenceCounter / HistogramState of src/src/multiharp_toolkit
* `G2`     – src/src/multiharp_toolkit/calc_g2.py
* `Dev`    – src/python/multiharp_toolkit/device.py (start_measurement)
* `Ptu`    – src/src/multiharp_toolkit/ptu_parser.py
* `MhFile` – src/src/mh_file_parser/parser.py

Machine integers are modelled as `Nat` (Python integers are unbounded, so no
wrap-around is introduced); picosecond timestamps handled as Python floats by
the coincidence engine are modelled as `Rat`, preserving the exact ordered
field operations the code performs on them.
-/

namespace Tttr

/-- Decoded view of one raw 32-bit T2 record, from `split_raw_t2_record`.
The Python code computes `(raw >> 31) & 0x01`, `(raw >> 25) & 0x3F` and
`raw & 0x1FFFFFF`; for natural numbers these bit operations coincide with
`raw / 2^31 % 2`, `raw / 2^25 % 64` and `raw % 2^25`, the form used here. -/
def split_raw_t2_record (raw_record : ℕ) : ℕ × ℕ × ℕ :=
  (raw_record / 2 ^ 31 % 2, raw_record / 2 ^ 25 % 64, raw_record % 2 ^ 25)

/-- Value of `MultiharpDeviceChannel.CHAN_8_SYNC` in interface.py (an
`IntFlag` member, numerically 0x0100 = 256). -/
def CHAN_8_SYNC : ℕ := 0x0100

/-- One decoded T2 record `(channel, timestamp_ps)` as produced on the
output queue (`T2Record = tuple[int, int]`). -/
def T2Record : Type := ℕ × ℕ

/-- Mutable fields of `T2RecordQueueProcessor` that the record decoding
path reads or writes (queues and the `closed` flag are I/O plumbing). -/
structure T2RecordQueueProcessor where
  t2wraparound_v2 : ℕ := 33554432
  overflow_correction : ℕ := 0
  resolution : ℕ := 5
deriving DecidableEq, Repr

/-- Translation of `T2RecordQueueProcessor.__process_special_records`.
Returns the updated processor, the records put on the output queue, and
the boolean the method returns (`True` when the record was special). -/
def T2RecordQueueProcessor.process_special_records
    (p : T2RecordQueueProcessor) (special channel time_tag : ℕ) :
    T2RecordQueueProcessor × List (ℕ × ℕ) × Bool :=
  if special ≠ 1 then (p, [], false)
  else if channel = 0x3F then
    if time_tag = 0 then
      ({ p with overflow_correction := p.overflow_correction + p.t2wraparound_v2 }, [], true)
    else
      ({ p with overflow_correction :=
          p.overflow_correction + p.t2wraparound_v2 * time_tag }, [], true)
  else if channel = 0 then
    (p, [(CHAN_8_SYNC, (p.overflow_correction + time_tag) * p.resolution)], true)
  else
    (p, [], true)

/-- Translation of `T2RecordQueueProcessor.__process_normal_record`. -/
def T2RecordQueueProcessor.process_normal_record
    (p : T2RecordQueueProcessor) (channel time_tag : ℕ) :
    T2RecordQueueProcessor × List (ℕ × ℕ) :=
  (p, [(channel + 1, (p.overflow_correction + time_tag) * p.resolution)])

/-- One iteration of the loop in `__process_raw_records`. -/
def T2RecordQueueProcessor.process_raw_record
    (p : T2RecordQueueProcessor) (raw_record : ℕ) :
    T2RecordQueueProcessor × List (ℕ × ℕ) :=
  let (special, channel, time_tag) := split_raw_t2_record raw_record
  let (p1, out, handled) := p.process_special_records special channel time_tag
  if handled then (p1, out)
  else
    let (p2, out2) := p1.process_normal_record channel time_tag
    (p2, out ++ out2)

/-- Translation of `__process_raw_records`: fold the per-record step over a
batch of raw records, collecting everything put on the output queue. -/
def process_raw_records (p : T2RecordQueueProcessor) (raw_records : List ℕ) :
    T2RecordQueueProcessor × List (ℕ × ℕ) :=
  raw_records.foldl
    (fun acc w =>
      let (p1, out) := acc.1.process_raw_record w
      (p1, acc.2 ++ out))
    (p, [])

theorem split_raw_t2_record_fields (s c t : ℕ) (hs : s < 2) (hc : c < 64)
    (ht : t < 2 ^ 25) :
    split_raw_t2_record (s * 2 ^ 31 + c * 2 ^ 25 + t) = (s, c, t) := by
  unfold split_raw_t2_record
  refine Prod.ext ?_ (Prod.ext ?_ ?_) <;> simp <;> omega

end Tttr

/-- C1: starting from `ofl = 0`, an overflow special record with 25-bit tag
`k` increases `overflow_correction` by `33554432` when `k = 0` and by
`k * 33554432` when `k > 0`, and a following normal record `(0, c, t)`
decodes to the single event `(c + 1, (ofl + t) * 5)`; concretely, the words
`0xFE000000` then `0x00000001` decode to the single event
`(1, 167772165)`. -/
theorem t2_overflow_then_normal_decode (k c t : ℕ)
    (hk : k < 2 ^ 25) (hc : c < 64) (ht : t < 2 ^ 25) :
    Tttr.process_raw_records {} [2 ^ 31 + 63 * 2 ^ 25 + k, c * 2 ^ 25 + t]
      = ({ overflow_correction := (if k = 0 then 1 else k) * 33554432 },
         [(c + 1, ((if k = 0 then 1 else k) * 33554432 + t) * 5)])
    ∧ Tttr.process_raw_records {} [0xFE000000, 0x00000001]
      = ({ overflow_correction := 33554432 }, [(1, 167772165)]) := by
  constructor
  · have h1 : Tttr.split_raw_t2_record (1 * 2 ^ 31 + 63 * 2 ^ 25 + k) = (1, 63, k) :=
      Tttr.split_raw_t2_record_fields 1 63 k (by omega) (by omega) hk
    have h2 : Tttr.split_raw_t2_record (0 * 2 ^ 31 + c * 2 ^ 25 + t) = (0, c, t) :=
      Tttr.split_raw_t2_record_fields 0 c t (by omega) hc ht
    rw [one_mul] at h1
    rw [zero_mul, zero_add] at h2
    simp only [Tttr.process_raw_records, List.foldl,
      Tttr.T2RecordQueueProcessor.process_raw_record, h1, h2,
      Tttr.T2RecordQueueProcessor.process_special_records,
      Tttr.T2RecordQueueProcessor.process_normal_record]
    by_cases hk0 : k = 0 <;>
      simp [hk0, Nat.mul_comm]
  · decide

/-- Witness for C1 at `k = 2`, `c = 3`, `t = 7`. -/
theorem t2_overflow_then_normal_decode_witness :
    (Tttr.process_raw_records {} [2 ^ 31 + 63 * 2 ^ 25 + 2, 3 * 2 ^ 25 + 7]
      = ({ overflow_correction := (if 2 = 0 then 1 else 2) * 33554432 },
         [(3 + 1, ((if 2 = 0 then 1 else 2) * 33554432 + 7) * 5)])
    ∧ Tttr.process_raw_records {} [0xFE000000, 0x00000001]
      = ({ overflow_correction := 33554432 }, [(1, 167772165)])) :=
  t2_overflow_then_normal_decode 2 3 7 (by decide) (by decide) (by decide)

namespace SP

/-- Value of `T2WRAPAROUND_V2` in util_types.py. -/
def T2WRAPAROUND_V2 : ℕ := 33554432

/-- Decoding of one raw data word inside `StreamParser.run`
(stream_parser.py lines 62-78).  The state is `self.oflcorrection`; the
returned list holds the `(ch, timestamp)` pairs appended to
`ch_arr`/`ts_arr` (timestamps already converted to picoseconds by
`convert_timetag_to_relative_timestamp`, i.e. multiplied by the
`time_resolution` of 5). -/
def decode_word (oflcorrection : ℕ) (val : ℕ) : ℕ × List (ℕ × ℕ) :=
  let special := val / 2 ^ 31 % 2
  let channel := val / 2 ^ 25 % 64
  let timetag := val % 2 ^ 25
  if special = 1 then
    if channel = 0x3F then
      if timetag = 0 then (oflcorrection + T2WRAPAROUND_V2, [])
      else (oflcorrection + T2WRAPAROUND_V2 * timetag, [])
    else if channel = 0 then
      (oflcorrection, [(channel, (oflcorrection + timetag) * 5)])
    else (oflcorrection, [])
  else
    (oflcorrection, [(channel + 1, (oflcorrection + timetag) * 5)])

/-- Decoding of a batch of raw words by `StreamParser.run`, collecting all
emitted `(ch, timestamp)` pairs. -/
def decode_words (oflcorrection : ℕ) (vals : List ℕ) : ℕ × List (ℕ × ℕ) :=
  vals.foldl
    (fun acc w =>
      let (o, out) := decode_word acc.1 w
      (o, acc.2 ++ out))
    (oflcorrection, [])

end SP

/-- C2 failing evaluation: on the words `0x80000005` (sync special record)
then `0x00000007` (normal record), `StreamParser.run` emits `(0, 25)` then
`(1, 35)` as the claim states, but `T2RecordQueueProcessor` emits the sync
event with channel `CHAN_8_SYNC = 256` instead of channel 0, contradicting
both the claim and the `T2Record` documentation in tttr_record.py. -/
theorem sync_channel_failing_eval :
    SP.decode_words 0 [0x80000005, 0x00000007] = (0, [(0, 25), (1, 35)])
    ∧ Tttr.process_raw_records {} [0x80000005, 0x00000007]
        = ({}, [(256, 25), (1, 35)])
    ∧ Tttr.CHAN_8_SYNC = 256 := by
  refine ⟨by decide, by decide, by decide⟩

namespace CC

/-- Translation of `ChannelInfo` (identical in both coincidence_counter.py
files).  `Channel = int` becomes `ℤ`, `TimeTag = float` becomes `ℚ`. -/
structure ChannelInfo where
  ch : ℤ
  peak_start : ℚ := 0
  peak_end : ℚ := 0
deriving DecidableEq, Repr

/-- Translation of `ChannelInfo.in_peak_window`:
`self.peak_start < truetime < self.peak_end`, strict on both ends. -/
def ChannelInfo.in_peak_window (c : ChannelInfo) (truetime : ℚ) : Prop :=
  c.peak_start < truetime ∧ truetime < c.peak_end

instance (c : ChannelInfo) (t : ℚ) : Decidable (c.in_peak_window t) :=
  inferInstanceAs (Decidable (_ ∧ _))

/-- Fallback `ChannelInfo` used to give `self.channels[self.i]` a total
meaning; Python raises `IndexError` out of bounds, and all theorems keep
the index in bounds, so this default is never reached on covered runs. -/
def defaultChannelInfo : ChannelInfo := { ch := 0 }

/-- Translation of `CoincidenceCounterState` (identical in both
coincidence_counter.py files); the `name` string is omitted (machines are
identified positionally here). -/
structure CoincidenceCounterState where
  base_ch : ChannelInfo
  length : ℕ
  channels : List ChannelInfo
  i : ℕ
  base_start : ℚ
  last_truetime : ℚ
  count : ℕ
deriving DecidableEq, Repr

/-- Translation of `CoincidenceCounterState.__init__`:
`channels = [base_ch] + target_channels`, counters zeroed. -/
def CoincidenceCounterState.init (base_ch : ChannelInfo)
    (target_channels : List ChannelInfo) : CoincidenceCounterState :=
  { base_ch := base_ch
    channels := base_ch :: target_channels
    length := (base_ch :: target_channels).length
    i := 0
    count := 0
    base_start := 0
    last_truetime := 0 }

/-- Translation of `CoincidenceCounterState.process`.  A base-channel
event records `base_start` and returns immediately with `i = 1`; otherwise
the expected spec `channels[i]` is consulted, `i` advances only when the
delay is strictly inside the peak window, and reaching `i == length`
increments the count and resets `i`. -/
def CoincidenceCounterState.process (s : CoincidenceCounterState)
    (ch : ℤ) (truetime : ℚ) : CoincidenceCounterState :=
  let s := { s with last_truetime := truetime }
  if ch = s.base_ch.ch then
    { s with base_start := truetime, i := 1 }
  else
    let ch_info := s.channels.getD s.i defaultChannelInfo
    let s :=
      if ch = ch_info.ch ∧ ch_info.in_peak_window (truetime - s.base_start) then
        { s with i := s.i + 1 }
      else s
    if s.i = s.length then { s with count := s.count + 1, i := 0 } else s

/-- Run one machine over a list of `(ch, truetime)` events in order. -/
def runMachine (s : CoincidenceCounterState) (events : List (ℤ × ℚ)) :
    CoincidenceCounterState :=
  events.foldl (fun s e => s.process e.1 e.2) s

/-- Channels a machine references: its base and its targets (the `ch`
fields of `channels = [base_ch] + target_channels`). -/
def refChannels (s : CoincidenceCounterState) : List ℤ :=
  s.channels.map ChannelInfo.ch

/-- Observable part of a machine state: everything except
`last_truetime`, which `process` writes but never reads. -/
def erase (s : CoincidenceCounterState) : CoincidenceCounterState :=
  { s with last_truetime := 0 }

/-- Contribution of an in-progress tuple to the base-singles bound: 1 when
a tuple is underway (`i ≥ 1`), else 0. -/
def progressFlag (i : ℕ) : ℕ := if 1 ≤ i then 1 else 0

theorem process_eq (s : CoincidenceCounterState) (ch : ℤ) (t : ℚ) :
    s.process ch t =
      if ch = s.base_ch.ch then
        { s with last_truetime := t, base_start := t, i := 1 }
      else if ch = (s.channels.getD s.i defaultChannelInfo).ch
          ∧ (s.channels.getD s.i defaultChannelInfo).in_peak_window
              (t - s.base_start) then
        (if s.i + 1 = s.length then
          { s with last_truetime := t, i := 0, count := s.count + 1 }
        else { s with last_truetime := t, i := s.i + 1 })
      else if s.i = s.length then
        { s with last_truetime := t, i := 0, count := s.count + 1 }
      else { s with last_truetime := t } := by
  obtain ⟨bc, len, chs, i, bs, lt, cnt⟩ := s
  unfold CoincidenceCounterState.process
  dsimp only
  by_cases hb : ch = bc.ch
  · simp [hb]
  · simp only [if_neg hb]
    by_cases hm : ch = (chs.getD i defaultChannelInfo).ch
        ∧ (chs.getD i defaultChannelInfo).in_peak_window (t - bs)
    · simp only [if_pos hm]
    · simp only [if_neg hm]

theorem process_base_ch (s : CoincidenceCounterState) (ch : ℤ) (t : ℚ) :
    (s.process ch t).base_ch = s.base_ch := by
  rw [process_eq]
  split_ifs <;> rfl

theorem process_channels (s : CoincidenceCounterState) (ch : ℤ) (t : ℚ) :
    (s.process ch t).channels = s.channels := by
  rw [process_eq]
  split_ifs <;> rfl

theorem process_length (s : CoincidenceCounterState) (ch : ℤ) (t : ℚ) :
    (s.process ch t).length = s.length := by
  rw [process_eq]
  split_ifs <;> rfl

theorem process_i_lt (s : CoincidenceCounterState) (ch : ℤ) (t : ℚ)
    (h2 : 2 ≤ s.length) (hi : s.i < s.length) :
    (s.process ch t).i < s.length := by
  rw [process_eq]
  split_ifs <;> simp <;> omega

theorem process_last_irrel (bc : ChannelInfo) (len : ℕ) (chs : List ChannelInfo)
    (i : ℕ) (bs lt lt' : ℚ) (cnt : ℕ) (ch : ℤ) (t : ℚ) :
    CoincidenceCounterState.process ⟨bc, len, chs, i, bs, lt, cnt⟩ ch t
      = CoincidenceCounterState.process ⟨bc, len, chs, i, bs, lt', cnt⟩ ch t := rfl

theorem process_erase_congr (s s' : CoincidenceCounterState) (ch : ℤ) (t : ℚ)
    (h : erase s = erase s') :
    s.process ch t = s'.process ch t := by
  obtain ⟨bc, len, chs, i, bs, lt, cnt⟩ := s
  obtain ⟨bc', len', chs', i', bs', lt', cnt'⟩ := s'
  simp only [erase, CoincidenceCounterState.mk.injEq] at h
  obtain ⟨h1, h2, h3, h4, h5, -, h7⟩ := h
  subst h1; subst h2; subst h3; subst h4; subst h5; subst h7
  exact process_last_irrel bc len chs i bs lt lt' cnt ch t

theorem process_unref (s : CoincidenceCounterState) (ch : ℤ) (t : ℚ)
    (hhead : s.channels.head? = some s.base_ch)
    (hlen : s.length = s.channels.length) (hi : s.i < s.length)
    (hch : ch ∉ refChannels s) :
    s.process ch t = { s with last_truetime := t } := by
  have hb : ch ≠ s.base_ch.ch := by
    intro he
    exact hch (he ▸ List.mem_map_of_mem ChannelInfo.ch
      (List.mem_of_mem_head? hhead))
  have hexp : ch ≠ (s.channels.getD s.i defaultChannelInfo).ch := by
    intro he
    have hmem : s.channels.getD s.i defaultChannelInfo ∈ s.channels := by
      rw [List.getD_eq_getElem s.channels defaultChannelInfo (hlen ▸ hi)]
      exact List.getElem_mem _
    exact hch (he ▸ List.mem_map_of_mem ChannelInfo.ch hmem)
  rw [process_eq]
  rw [if_neg hb, if_neg (fun hand => hexp (And.left hand)),
    if_neg (Nat.ne_of_lt hi)]

theorem process_count_bound (s : CoincidenceCounterState) (ch : ℤ) (t : ℚ)
    (n : ℕ) (hhead : s.channels.head? = some s.base_ch)
    (h2 : 2 ≤ s.length) (hi : s.i < s.length)
    (hcnt : s.count + progressFlag s.i ≤ n) :
    (s.process ch t).count + progressFlag (s.process ch t).i
      ≤ n + (if ch = s.base_ch.ch then 1 else 0) := by
  have hbase0 : s.channels.getD 0 defaultChannelInfo = s.base_ch := by
    cases hcs : s.channels with
    | nil => rw [hcs] at hhead; simp at hhead
    | cons a l =>
      rw [hcs] at hhead
      simp only [List.head?_cons, Option.some.injEq] at hhead
      simp [hhead]
  rw [process_eq]
  by_cases hb : ch = s.base_ch.ch
  · rw [if_pos hb]
    simp only [progressFlag] at *
    split_ifs at * <;> omega
  · rw [if_neg hb]
    by_cases hm : ch = (s.channels.getD s.i defaultChannelInfo).ch
        ∧ (s.channels.getD s.i defaultChannelInfo).in_peak_window
            (t - s.base_start)
    · have hi1 : 1 ≤ s.i := by
        rcases Nat.eq_zero_or_pos s.i with h0 | h1
        · exact absurd (by rw [hm.1, h0, hbase0]) hb
        · exact h1
      rw [if_pos hm]
      by_cases hend : s.i + 1 = s.length
      · rw [if_pos hend]
        simp only [progressFlag] at *
        split_ifs at * <;> omega
      · rw [if_neg hend]
        simp only [progressFlag] at *
        split_ifs at * <;> omega
    · rw [if_neg hm, if_neg (Nat.ne_of_lt hi)]
      simp only [progressFlag] at *
      split_ifs at * <;> omega

end CC

/-- C3: for a machine whose progress index is in bounds, a non-base event
changes the progress index or the count exactly when its channel matches
the expected spec and its delay lies strictly inside the peak window; a
delay equal to `peak_start` or `peak_end` leaves both unchanged.  In
particular the stream `[(0,0),(1,1),(2,3)]` against the machine
`[(0),(1,0,1),(2,2,3)]` ends with count 0. -/
theorem coincidence_window_strict :
    (∀ (s : CC.CoincidenceCounterState) (ch : ℤ) (t : ℚ),
      s.i < s.length → ch ≠ s.base_ch.ch →
      (((s.process ch t).i ≠ s.i ∨ (s.process ch t).count ≠ s.count)
        ↔ (ch = (s.channels.getD s.i CC.defaultChannelInfo).ch
            ∧ (s.channels.getD s.i CC.defaultChannelInfo).peak_start < t - s.base_start
            ∧ t - s.base_start < (s.channels.getD s.i CC.defaultChannelInfo).peak_end)))
    ∧ (CC.runMachine
        (CC.CoincidenceCounterState.init { ch := 0 }
          [{ ch := 1, peak_start := 0, peak_end := 1 },
           { ch := 2, peak_start := 2, peak_end := 3 }])
        [(0, 0), (1, 1), (2, 3)]).count = 0 := by
  constructor
  · intro s ch t hi hb
    simp only [CC.CoincidenceCounterState.process, if_neg hb,
      CC.ChannelInfo.in_peak_window]
    by_cases hmatch : ch = (s.channels.getD s.i CC.defaultChannelInfo).ch
        ∧ (s.channels.getD s.i CC.defaultChannelInfo).peak_start < t - s.base_start
        ∧ t - s.base_start < (s.channels.getD s.i CC.defaultChannelInfo).peak_end
    · simp only [if_pos hmatch]
      by_cases hend : s.i + 1 = s.length
      · simp only [if_pos hend]
        exact ⟨fun _ => hmatch, fun _ => Or.inr (by simp)⟩
      · simp only [if_neg hend]
        exact ⟨fun _ => hmatch, fun _ => Or.inl (by simp)⟩
    · simp only [if_neg hmatch, if_neg (Nat.ne_of_lt hi)]
      simp only [ne_eq, not_true_eq_false, or_self, false_iff]
      exact hmatch
  · norm_num [CC.runMachine, List.foldl, CC.CoincidenceCounterState.process,
      CC.CoincidenceCounterState.init, CC.defaultChannelInfo,
      CC.ChannelInfo.in_peak_window, List.getD]

namespace PyCC

/-- Translation of `CoincidenceCounter` in
src/python/multiharp_toolkit/coincidence_counter.py.  The
`number_of_counts` dict becomes its key list (`known`) plus a total value
function; every key is initialised to 0, and `process` consults only
membership in `known` and the value at the processed channel, so absent
keys mapping to 0 is unobservable. -/
structure CoincidenceCounter where
  known : List ℤ
  number_of_counts : ℤ → ℕ
  coincidence_counters : List CC.CoincidenceCounterState

/-- Translation of `CoincidenceCounter.__init__`.  Each coincidence target
list is given as its head (the base) and tail, matching the
`base_ch, *channels = target` unpacking that the
`len(set(target)) >= 2` assertion makes well defined. -/
def mkCoincidenceCounter
    (coincidence_targets : List (CC.ChannelInfo × List CC.ChannelInfo)) :
    CoincidenceCounter :=
  { known := (coincidence_targets.map
      (fun bt => (bt.1 :: bt.2).map CC.ChannelInfo.ch)).flatten
    number_of_counts := fun _ => 0
    coincidence_counters := coincidence_targets.map
      (fun bt => CC.CoincidenceCounterState.init bt.1 bt.2) }

/-- Translation of `CoincidenceCounter.process`: events on channels not in
`number_of_counts` are dropped; otherwise the channel's singles counter is
incremented and every machine processes the event. -/
def CoincidenceCounter.process (c : CoincidenceCounter) (ch : ℤ)
    (truetime : ℚ) : CoincidenceCounter :=
  if ch ∈ c.known then
    { c with
      number_of_counts := fun d =>
        if d = ch then c.number_of_counts d + 1 else c.number_of_counts d
      coincidence_counters :=
        c.coincidence_counters.map (fun s => s.process ch truetime) }
  else c

/-- Translation of `CoincidenceCounter.process_events`. -/
def process_events (c : CoincidenceCounter) (events : List (ℤ × ℚ)) :
    CoincidenceCounter :=
  events.foldl (fun c e => c.process e.1 e.2) c

/-- Effect of one counter event on a single machine: processed when the
channel is a known key, untouched otherwise. -/
def stepK (known : List ℤ) (s : CC.CoincidenceCounterState) (e : ℤ × ℚ) :
    CC.CoincidenceCounterState :=
  if e.1 ∈ known then s.process e.1 e.2 else s

theorem process_known (c : CoincidenceCounter) (ch : ℤ) (t : ℚ) :
    (c.process ch t).known = c.known := by
  unfold CoincidenceCounter.process
  split <;> rfl

theorem process_events_known (c : CoincidenceCounter) (events : List (ℤ × ℚ)) :
    (process_events c events).known = c.known := by
  induction events generalizing c with
  | nil => rfl
  | cons e evs ih =>
    show (process_events (c.process e.1 e.2) evs).known = c.known
    rw [ih, process_known]

theorem process_events_machine (events : List (ℤ × ℚ))
    (c : CoincidenceCounter) (j : ℕ) :
    (process_events c events).coincidence_counters[j]?
      = (c.coincidence_counters[j]?).map
          (fun s => events.foldl (stepK c.known) s) := by
  induction events generalizing c with
  | nil =>
    show c.coincidence_counters[j]?
      = (c.coincidence_counters[j]?).map (fun s => s)
    rw [Option.map_id']
  | cons e evs ih =>
    show (process_events (c.process e.1 e.2) evs).coincidence_counters[j]? = _
    rw [ih, process_known]
    have hmach : (c.process e.1 e.2).coincidence_counters[j]?
        = (c.coincidence_counters[j]?).map (fun s => stepK c.known s e) := by
      unfold CoincidenceCounter.process stepK
      by_cases hk : e.1 ∈ c.known
      · simp only [if_pos hk, List.getElem?_map]
      · simp only [if_neg hk, Option.map_id']
    rw [hmach, Option.map_map]
    rfl

/-- Streams relaxed by inserting extra events whose channel satisfies `P`
anywhere; `ExtendsUnref P xs ys` holds when `ys` is `xs` with such
insertions. -/
inductive ExtendsUnref (P : ℤ → Prop) : List (ℤ × ℚ) → List (ℤ × ℚ) → Prop
  | nil : ExtendsUnref P [] []
  | keep (e : ℤ × ℚ) {xs ys : List (ℤ × ℚ)} :
      ExtendsUnref P xs ys → ExtendsUnref P (e :: xs) (e :: ys)
  | insert (e : ℤ × ℚ) {xs ys : List (ℤ × ℚ)} :
      P e.1 → ExtendsUnref P xs ys → ExtendsUnref P xs (e :: ys)

theorem stepK_conf (known : List ℤ) (s : CC.CoincidenceCounterState)
    (e : ℤ × ℚ) :
    (stepK known s e).base_ch = s.base_ch
    ∧ (stepK known s e).channels = s.channels
    ∧ (stepK known s e).length = s.length := by
  unfold stepK
  split
  · exact ⟨CC.process_base_ch _ _ _, CC.process_channels _ _ _,
      CC.process_length _ _ _⟩
  · exact ⟨rfl, rfl, rfl⟩

theorem stepK_i_lt (known : List ℤ) (s : CC.CoincidenceCounterState)
    (e : ℤ × ℚ) (h2 : 2 ≤ s.length) (hi : s.i < s.length) :
    (stepK known s e).i < s.length := by
  unfold stepK
  split
  · exact CC.process_i_lt _ _ _ h2 hi
  · exact hi

theorem stepK_erase_congr (known : List ℤ) (s s' : CC.CoincidenceCounterState)
    (e : ℤ × ℚ) (h : CC.erase s = CC.erase s') :
    CC.erase (stepK known s e) = CC.erase (stepK known s' e) := by
  unfold stepK
  split
  · rw [CC.process_erase_congr s s' e.1 e.2 h]
  · exact h

theorem stepK_unref (known : List ℤ) (s : CC.CoincidenceCounterState)
    (e : ℤ × ℚ) (hhead : s.channels.head? = some s.base_ch)
    (hlen : s.length = s.channels.length) (hi : s.i < s.length)
    (hch : e.1 ∉ CC.refChannels s) :
    CC.erase (stepK known s e) = CC.erase s := by
  unfold stepK
  split
  · rw [CC.process_unref s e.1 e.2 hhead hlen hi hch]
    rfl
  · rfl

/-- Observable fields of one machine survive a fold over any stream `ys`
that extends `xs` by events on channels the machine does not reference. -/
theorem foldl_stepK_extends (known : List ℤ) (m0 : CC.CoincidenceCounterState)
    (hhead0 : m0.channels.head? = some m0.base_ch)
    (hlen0 : m0.length = m0.channels.length) (h20 : 2 ≤ m0.length) :
    ∀ {xs ys : List (ℤ × ℚ)},
      ExtendsUnref (fun c => c ∉ CC.refChannels m0) xs ys →
      ∀ s s' : CC.CoincidenceCounterState,
        CC.erase s = CC.erase s' →
        s.base_ch = m0.base_ch → s.channels = m0.channels →
        s.length = m0.length → s.i < s.length →
        CC.erase (ys.foldl (stepK known) s')
          = CC.erase (xs.foldl (stepK known) s) := by
  intro xs ys hext
  induction hext with
  | nil =>
    intro s s' he _ _ _ _
    exact he.symm
  | keep e hext ih =>
    intro s s' he hb hc hl hi
    rw [List.foldl_cons, List.foldl_cons]
    have hconf := stepK_conf known s e
    refine ih (stepK known s e) (stepK known s' e)
      (stepK_erase_congr known s s' e he) ?_ ?_ ?_ ?_
    · rw [hconf.1, hb]
    · rw [hconf.2.1, hc]
    · rw [hconf.2.2, hl]
    · rw [hconf.2.2]
      exact stepK_i_lt known s e (by rw [hl]; exact h20) hi
  | insert e hP hext ih =>
    intro s s' he hb hc hl hi
    rw [List.foldl_cons]
    have hch' : s.channels = s'.channels :=
      congrArg (fun x => x.channels) he
    have hbch' : s.base_ch = s'.base_ch :=
      congrArg (fun x => x.base_ch) he
    have hlen' : s.length = s'.length :=
      congrArg (fun x => x.length) he
    have hi' : s.i = s'.i :=
      congrArg (fun x => x.i) he
    have hu : CC.erase (stepK known s' e) = CC.erase s' := by
      apply stepK_unref
      · rw [← hch', ← hbch', hc, hb]
        exact hhead0
      · rw [← hlen', ← hch', hl, hc]
        exact hlen0
      · rw [← hi', ← hlen']
        exact hi
      · show e.1 ∉ CC.refChannels s'
        unfold CC.refChannels
        rw [← hch', hc]
        exact hP
    exact ih s (stepK known s' e) (he.trans hu.symm) hb hc hl hi

end PyCC

/-- C4: the final count of a configured coincidence machine is unchanged
when the processed stream is extended by inserting, at arbitrary
positions, events whose channels are not among the channels the machine
references (its base and its targets). -/
theorem coincidence_frame_unreferenced
    (targets : List (CC.ChannelInfo × List CC.ChannelInfo)) (j : ℕ)
    (xs ys : List (ℤ × ℚ))
    (hj : j < targets.length)
    (hne : (targets.getD j (CC.defaultChannelInfo, [])).2 ≠ [])
    (hext : PyCC.ExtendsUnref
      (fun c => c ∉ ((targets.getD j (CC.defaultChannelInfo, [])).1
          :: (targets.getD j (CC.defaultChannelInfo, [])).2).map
        CC.ChannelInfo.ch) xs ys)
    (m m' : CC.CoincidenceCounterState)
    (hm : (PyCC.process_events (PyCC.mkCoincidenceCounter targets)
      ys).coincidence_counters[j]? = some m)
    (hm' : (PyCC.process_events (PyCC.mkCoincidenceCounter targets)
      xs).coincidence_counters[j]? = some m') :
    m.count = m'.count := by
  have hgetD : targets.getD j (CC.defaultChannelInfo, []) = targets[j] :=
    List.getD_eq_getElem targets (CC.defaultChannelInfo, []) hj
  have hc0 : (PyCC.mkCoincidenceCounter targets).coincidence_counters[j]?
      = some (CC.CoincidenceCounterState.init
          (targets.getD j (CC.defaultChannelInfo, [])).1
          (targets.getD j (CC.defaultChannelInfo, [])).2) := by
    show (targets.map _)[j]? = _
    rw [List.getElem?_map, List.getElem?_eq_getElem hj, Option.map_some', hgetD]
  have hmy := PyCC.process_events_machine ys (PyCC.mkCoincidenceCounter targets) j
  have hmx := PyCC.process_events_machine xs (PyCC.mkCoincidenceCounter targets) j
  rw [hm, hc0, Option.map_some'] at hmy
  rw [hm', hc0, Option.map_some'] at hmx
  have hm_eq := Option.some.inj hmy
  have hm'_eq := Option.some.inj hmx
  have h20 : 2 ≤ (CC.CoincidenceCounterState.init
      (targets.getD j (CC.defaultChannelInfo, [])).1
      (targets.getD j (CC.defaultChannelInfo, [])).2).length := by
    show 2 ≤ ((targets.getD j (CC.defaultChannelInfo, [])).1
      :: (targets.getD j (CC.defaultChannelInfo, [])).2).length
    cases hbt2 : (targets.getD j (CC.defaultChannelInfo, [])).2 with
    | nil => exact absurd hbt2 hne
    | cons a l => simp [List.length_cons]
  have herase := PyCC.foldl_stepK_extends
    (PyCC.mkCoincidenceCounter targets).known
    (CC.CoincidenceCounterState.init
      (targets.getD j (CC.defaultChannelInfo, [])).1
      (targets.getD j (CC.defaultChannelInfo, [])).2)
    rfl rfl h20 hext _ _ rfl rfl rfl rfl
    (by
      show 0 < _
      omega)
  rw [hm_eq, hm'_eq]
  exact congrArg (fun x => x.count) herase

/-- Concrete machine state reached in the C4 witness runs. -/
def c4WitnessMachine : CC.CoincidenceCounterState :=
  { base_ch := { ch := 0 }
    length := 2
    channels := [{ ch := 0 }, { ch := 1, peak_start := 1, peak_end := 2 }]
    i := 1
    base_start := 5
    last_truetime := 5
    count := 0 }

/-- Witness for C4: inserting events on unreferenced channels 7 and 9
around a base event leaves the machine over channels `[0, 1]` with the
same count. -/
theorem coincidence_frame_unreferenced_witness :
    (PyCC.process_events
      (PyCC.mkCoincidenceCounter
        [({ ch := 0 }, [{ ch := 1, peak_start := 1, peak_end := 2 }])])
      [(7, 1), (0, 5), (9, 2)]).coincidence_counters[0]?
      = some c4WitnessMachine
    ∧ (PyCC.process_events
      (PyCC.mkCoincidenceCounter
        [({ ch := 0 }, [{ ch := 1, peak_start := 1, peak_end := 2 }])])
      [(0, 5)]).coincidence_counters[0]?
      = some c4WitnessMachine
    ∧ c4WitnessMachine.count = c4WitnessMachine.count :=
  ⟨rfl, rfl,
    coincidence_frame_unreferenced
      [({ ch := 0 }, [{ ch := 1, peak_start := 1, peak_end := 2 }])] 0
      [(0, 5)] [(7, 1), (0, 5), (9, 2)]
      (by decide) (by decide)
      (PyCC.ExtendsUnref.insert (7, 1) (by decide)
        (PyCC.ExtendsUnref.keep (0, 5)
          (PyCC.ExtendsUnref.insert (9, 2) (by decide) PyCC.ExtendsUnref.nil)))
      c4WitnessMachine c4WitnessMachine rfl rfl⟩

namespace PyCC

/-- Invariant tying machine `j` of a counter to the singles counter of its
base channel: the machine is well formed, its base is a known key, and its
count plus the in-progress flag is bounded by the base singles count. -/
def CounterGoodAt (c : CoincidenceCounter) (j : ℕ) : Prop :=
  ∃ m, c.coincidence_counters[j]? = some m
    ∧ m.channels.head? = some m.base_ch
    ∧ m.length = m.channels.length
    ∧ 2 ≤ m.length
    ∧ m.i < m.length
    ∧ m.base_ch.ch ∈ c.known
    ∧ m.count + CC.progressFlag m.i ≤ c.number_of_counts m.base_ch.ch

theorem counterGoodAt_process (c : CoincidenceCounter) (j : ℕ) (ch : ℤ)
    (t : ℚ) (h : CounterGoodAt c j) : CounterGoodAt (c.process ch t) j := by
  obtain ⟨m, hm, hhead, hlen, h2, hi, hbase, hcnt⟩ := h
  unfold CoincidenceCounter.process
  by_cases hk : ch ∈ c.known
  · simp only [if_pos hk]
    refine ⟨m.process ch t, ?_, ?_, ?_, ?_, ?_, ?_, ?_⟩
    · show (c.coincidence_counters.map _)[j]? = _
      rw [List.getElem?_map, hm, Option.map_some']
    · rw [CC.process_channels, CC.process_base_ch]
      exact hhead
    · rw [CC.process_length, CC.process_channels]
      exact hlen
    · rw [CC.process_length]
      exact h2
    · rw [CC.process_length]
      exact CC.process_i_lt m ch t h2 hi
    · show (m.process ch t).base_ch.ch ∈ c.known
      rw [CC.process_base_ch]
      exact hbase
    · rw [CC.process_base_ch]
      have hb := CC.process_count_bound m ch t
        (c.number_of_counts m.base_ch.ch) hhead h2 hi hcnt
      by_cases hbc : m.base_ch.ch = ch
      · rw [if_pos hbc.symm] at hb
        show _ ≤ if m.base_ch.ch = ch then _ + 1 else _
        rw [if_pos hbc]
        exact hb
      · rw [if_neg (fun he => hbc he.symm)] at hb
        show _ ≤ if m.base_ch.ch = ch then _ + 1 else _
        rw [if_neg hbc]
        simpa using hb
  · simp only [if_neg hk]
    exact ⟨m, hm, hhead, hlen, h2, hi, hbase, hcnt⟩

theorem counterGoodAt_events (c : CoincidenceCounter) (j : ℕ)
    (events : List (ℤ × ℚ)) (h : CounterGoodAt c j) :
    CounterGoodAt (process_events c events) j := by
  induction events generalizing c with
  | nil => exact h
  | cons e evs ih =>
    exact ih (c.process e.1 e.2) (counterGoodAt_process c j e.1 e.2 h)

theorem counterGoodAt_mk
    (targets : List (CC.ChannelInfo × List CC.ChannelInfo)) (j : ℕ)
    (hj : j < targets.length)
    (hne : (targets.getD j (CC.defaultChannelInfo, [])).2 ≠ []) :
    CounterGoodAt (mkCoincidenceCounter targets) j := by
  have hgetD : targets.getD j (CC.defaultChannelInfo, []) = targets[j] :=
    List.getD_eq_getElem targets (CC.defaultChannelInfo, []) hj
  refine ⟨CC.CoincidenceCounterState.init
      (targets.getD j (CC.defaultChannelInfo, [])).1
      (targets.getD j (CC.defaultChannelInfo, [])).2,
    ?_, rfl, rfl, ?_, ?_, ?_, ?_⟩
  · show (targets.map _)[j]? = _
    rw [List.getElem?_map, List.getElem?_eq_getElem hj, Option.map_some', hgetD]
  · show 2 ≤ ((targets.getD j (CC.defaultChannelInfo, [])).1
      :: (targets.getD j (CC.defaultChannelInfo, [])).2).length
    cases hbt2 : (targets.getD j (CC.defaultChannelInfo, [])).2 with
    | nil => exact absurd hbt2 hne
    | cons a l => simp [List.length_cons]
  · show 0 < ((targets.getD j (CC.defaultChannelInfo, [])).1
      :: (targets.getD j (CC.defaultChannelInfo, [])).2).length
    simp
  · show (targets.getD j (CC.defaultChannelInfo, [])).1.ch
      ∈ (targets.map (fun bt => (bt.1 :: bt.2).map CC.ChannelInfo.ch)).flatten
    refine List.mem_flatten.mpr
      ⟨((targets.getD j (CC.defaultChannelInfo, [])).1
        :: (targets.getD j (CC.defaultChannelInfo, [])).2).map
          CC.ChannelInfo.ch, ?_, ?_⟩
    · rw [hgetD]
      exact List.mem_map_of_mem _ (List.getElem_mem hj)
    · exact List.mem_map_of_mem _ (List.mem_cons_self _ _)
  · show 0 + CC.progressFlag 0 ≤ 0
    simp [CC.progressFlag]

end PyCC

/-- C5: after processing any event stream through a `CoincidenceCounter`,
the coincidence count of each configured machine is at most the singles
counter of that machine's base channel (and this applies to every prefix,
since `events` ranges over all streams). -/
theorem coincidence_singles_bound
    (targets : List (CC.ChannelInfo × List CC.ChannelInfo))
    (events : List (ℤ × ℚ)) (j : ℕ)
    (hj : j < targets.length)
    (hne : (targets.getD j (CC.defaultChannelInfo, [])).2 ≠ [])
    (m : CC.CoincidenceCounterState)
    (hm : (PyCC.process_events (PyCC.mkCoincidenceCounter targets)
      events).coincidence_counters[j]? = some m) :
    m.count ≤ (PyCC.process_events (PyCC.mkCoincidenceCounter targets)
      events).number_of_counts m.base_ch.ch := by
  obtain ⟨m2, hm2, -, -, -, -, -, hcnt⟩ :=
    PyCC.counterGoodAt_events (PyCC.mkCoincidenceCounter targets) j events
      (PyCC.counterGoodAt_mk targets j hj hne)
  rw [hm] at hm2
  obtain rfl := Option.some.inj hm2
  exact le_trans (Nat.le_add_right _ _) hcnt

/-- Concrete machine state reached in the C5 witness run. -/
def c5WitnessMachine : CC.CoincidenceCounterState :=
  { base_ch := { ch := 0 }
    length := 2
    channels := [{ ch := 0 }, { ch := 1, peak_start := 1, peak_end := 2 }]
    i := 1
    base_start := 9
    last_truetime := 9
    count := 0 }

/-- Witness for C5: two base events give singles 2 on channel 0 and the
machine count 0 stays below it. -/
theorem coincidence_singles_bound_witness :
    (PyCC.process_events
      (PyCC.mkCoincidenceCounter
        [({ ch := 0 }, [{ ch := 1, peak_start := 1, peak_end := 2 }])])
      [(0, 5), (0, 9)]).coincidence_counters[0]?
      = some c5WitnessMachine
    ∧ c5WitnessMachine.count
      ≤ (PyCC.process_events
        (PyCC.mkCoincidenceCounter
          [({ ch := 0 }, [{ ch := 1, peak_start := 1, peak_end := 2 }])])
        [(0, 5), (0, 9)]).number_of_counts c5WitnessMachine.base_ch.ch :=
  ⟨rfl,
    coincidence_singles_bound
      [({ ch := 0 }, [{ ch := 1, peak_start := 1, peak_end := 2 }])]
      [(0, 5), (0, 9)] 0 (by decide) (by decide) c5WitnessMachine rfl⟩

namespace SrcCC

/-- Translation of the `ChannelInfo.is_ready` property of
src/src/multiharp_toolkit/coincidence_counter.py:
`peak_start > 0 and peak_end > 0`. -/
def channelIsReady (c : CC.ChannelInfo) : Prop :=
  0 < c.peak_start ∧ 0 < c.peak_end

instance (c : CC.ChannelInfo) : Decidable (channelIsReady c) :=
  inferInstanceAs (Decidable (_ ∧ _))

/-- Translation of the `CoincidenceCounterState.is_ready` property: every
channel of `channels[1:]` is ready. -/
def machineIsReady (s : CC.CoincidenceCounterState) : Prop :=
  ∀ c ∈ s.channels.tail, channelIsReady c

instance (s : CC.CoincidenceCounterState) : Decidable (machineIsReady s) :=
  List.decidableBAll _ _

/-- Translation of `HistogramState`.  The `timediffs` dict becomes a total
function to `Option`: keys present map to `some` list. -/
structure HistogramState where
  base_ch : ℤ
  channels : List ℤ
  base_start : ℚ
  last_truetime : ℚ
  timediffs : ℤ → Option (List ℚ)

/-- Translation of `HistogramState.__init__`: `base_start = 0` and one
empty difference list per target channel. -/
def HistogramState.init (base_ch : ℤ) (channels : List ℤ) : HistogramState :=
  { base_ch := base_ch
    channels := channels
    base_start := 0
    last_truetime := 0
    timediffs := fun ch => if ch ∈ channels then some [] else none }

/-- Translation of `HistogramState.process`: base events move
`base_start`; events on a known target channel append
`truetime - base_start` to that channel's difference list. -/
def HistogramState.process (h : HistogramState) (ch : ℤ) (truetime : ℚ) :
    HistogramState :=
  let h := { h with last_truetime := truetime }
  if ch = h.base_ch then { h with base_start := truetime }
  else
    match h.timediffs ch with
    | some l =>
        { h with timediffs := fun d =>
            if d = ch then some (l ++ [truetime - h.base_start])
            else h.timediffs d }
    | none => h

/-- Translation of the `CoincidenceCounter` of
src/src/multiharp_toolkit/coincidence_counter.py (histograms plus
`is_ready`-gated machines). -/
structure CoincidenceCounter where
  known : List ℤ
  number_of_counts : ℤ → ℕ
  histograms : List HistogramState
  coincidence_counters : List CC.CoincidenceCounterState

/-- Translation of this `CoincidenceCounter.__init__`; as in `PyCC`,
coincidence targets come as (base, targets) pairs reflecting the
`base_ch, *channels = target` unpacking. -/
def mkCoincidenceCounter (histogram_targets : List ℤ)
    (coincidence_targets : List (CC.ChannelInfo × List CC.ChannelInfo)) :
    CoincidenceCounter :=
  { known := histogram_targets ++ (coincidence_targets.map
      (fun bt => (bt.1 :: bt.2).map CC.ChannelInfo.ch)).flatten
    number_of_counts := fun _ => 0
    histograms :=
      match histogram_targets with
      | [] => []
      | b :: rest => [HistogramState.init b rest]
    coincidence_counters := coincidence_targets.map
      (fun bt => CC.CoincidenceCounterState.init bt.1 bt.2) }

/-- Translation of this `CoincidenceCounter.process`: unknown channels are
dropped; otherwise singles are incremented, histograms process the event,
and each machine processes it only when `is_ready`. -/
def CoincidenceCounter.process (c : CoincidenceCounter) (ch : ℤ)
    (truetime : ℚ) : CoincidenceCounter :=
  if ch ∈ c.known then
    { c with
      number_of_counts := fun d =>
        if d = ch then c.number_of_counts d + 1 else c.number_of_counts d
      histograms := c.histograms.map (fun h => h.process ch truetime)
      coincidence_counters := c.coincidence_counters.map
        (fun s => if machineIsReady s then s.process ch truetime else s) }
  else c

/-- Translation of this `CoincidenceCounter.process_events`. -/
def process_events (c : CoincidenceCounter) (events : List (ℤ × ℚ)) :
    CoincidenceCounter :=
  events.foldl (fun c e => c.process e.1 e.2) c

/-- Counterpart of `PyCC.CounterGoodAt` for the gated counter, also fixing
the base channel id `b` of machine `j`. -/
def GoodAt (c : CoincidenceCounter) (j : ℕ) (b : ℤ) : Prop :=
  ∃ m, c.coincidence_counters[j]? = some m
    ∧ m.base_ch.ch = b
    ∧ m.channels.head? = some m.base_ch
    ∧ m.length = m.channels.length
    ∧ 2 ≤ m.length
    ∧ m.i < m.length
    ∧ b ∈ c.known
    ∧ m.count + CC.progressFlag m.i ≤ c.number_of_counts b

theorem srcGoodAt_process (c : CoincidenceCounter) (j : ℕ) (b : ℤ) (ch : ℤ)
    (t : ℚ) (h : GoodAt c j b) : GoodAt (c.process ch t) j b := by
  obtain ⟨m, hm, hbch, hhead, hlen, h2, hi, hbase, hcnt⟩ := h
  unfold CoincidenceCounter.process
  by_cases hk : ch ∈ c.known
  · simp only [if_pos hk]
    by_cases hr : machineIsReady m
    · refine ⟨m.process ch t, ?_, ?_, ?_, ?_, ?_, ?_, hbase, ?_⟩
      · show (c.coincidence_counters.map _)[j]? = _
        rw [List.getElem?_map, hm, Option.map_some']
        rw [if_pos hr]
      · rw [CC.process_base_ch]
        exact hbch
      · rw [CC.process_channels, CC.process_base_ch]
        exact hhead
      · rw [CC.process_length, CC.process_channels]
        exact hlen
      · rw [CC.process_length]
        exact h2
      · rw [CC.process_length]
        exact CC.process_i_lt m ch t h2 hi
      · have hb := CC.process_count_bound m ch t
          (c.number_of_counts b) hhead h2 hi hcnt
        rw [hbch] at hb
        by_cases hbc : b = ch
        · rw [if_pos hbc.symm] at hb
          show _ ≤ if b = ch then _ + 1 else _
          rw [if_pos hbc]
          exact hb
        · rw [if_neg (fun he => hbc he.symm)] at hb
          show _ ≤ if b = ch then _ + 1 else _
          rw [if_neg hbc]
          simpa using hb
    · refine ⟨m, ?_, hbch, hhead, hlen, h2, hi, hbase, ?_⟩
      · show (c.coincidence_counters.map _)[j]? = _
        rw [List.getElem?_map, hm, Option.map_some']
        rw [if_neg hr]
      · show _ ≤ if b = ch then _ + 1 else _
        split_ifs <;> omega
  · simp only [if_neg hk]
    exact ⟨m, hm, hbch, hhead, hlen, h2, hi, hbase, hcnt⟩

theorem srcGoodAt_events (c : CoincidenceCounter) (j : ℕ) (b : ℤ)
    (events : List (ℤ × ℚ)) (h : GoodAt c j b) :
    GoodAt (process_events c events) j b := by
  induction events generalizing c with
  | nil => exact h
  | cons e evs ih =>
    exact ih (c.process e.1 e.2) (srcGoodAt_process c j b e.1 e.2 h)

theorem srcGoodAt_mk (histogram_targets : List ℤ)
    (targets : List (CC.ChannelInfo × List CC.ChannelInfo)) (j : ℕ)
    (hj : j < targets.length)
    (hne : (targets.getD j (CC.defaultChannelInfo, [])).2 ≠ []) :
    GoodAt (mkCoincidenceCounter histogram_targets targets) j
      (targets.getD j (CC.defaultChannelInfo, [])).1.ch := by
  have hgetD : targets.getD j (CC.defaultChannelInfo, []) = targets[j] :=
    List.getD_eq_getElem targets (CC.defaultChannelInfo, []) hj
  refine ⟨CC.CoincidenceCounterState.init
      (targets.getD j (CC.defaultChannelInfo, [])).1
      (targets.getD j (CC.defaultChannelInfo, [])).2,
    ?_, rfl, rfl, rfl, ?_, ?_, ?_, ?_⟩
  · show (targets.map _)[j]? = _
    rw [List.getElem?_map, List.getElem?_eq_getElem hj, Option.map_some', hgetD]
  · show 2 ≤ ((targets.getD j (CC.defaultChannelInfo, [])).1
      :: (targets.getD j (CC.defaultChannelInfo, [])).2).length
    cases hbt2 : (targets.getD j (CC.defaultChannelInfo, [])).2 with
    | nil => exact absurd hbt2 hne
    | cons a l => simp [List.length_cons]
  · show 0 < ((targets.getD j (CC.defaultChannelInfo, [])).1
      :: (targets.getD j (CC.defaultChannelInfo, [])).2).length
    simp
  · show (targets.getD j (CC.defaultChannelInfo, [])).1.ch
      ∈ histogram_targets ++ (targets.map
        (fun bt => (bt.1 :: bt.2).map CC.ChannelInfo.ch)).flatten
    refine List.mem_append_right _ (List.mem_flatten.mpr
      ⟨((targets.getD j (CC.defaultChannelInfo, [])).1
        :: (targets.getD j (CC.defaultChannelInfo, [])).2).map
          CC.ChannelInfo.ch, ?_, ?_⟩)
    · rw [hgetD]
      exact List.mem_map_of_mem _ (List.getElem_mem hj)
    · exact List.mem_map_of_mem _ (List.mem_cons_self _ _)
  · show 0 + CC.progressFlag 0 ≤ 0
    simp [CC.progressFlag]

end SrcCC

namespace G2

/-- Failure raised by Python division; `calc_g2` performs its divisions
with no zero checks, so a zero denominator raises `ZeroDivisionError`. -/
inductive PyError where
  | zeroDivisionError
deriving DecidableEq, Repr

/-- Python true division on exact numbers: raises on a zero divisor,
returns the quotient otherwise. -/
def pydiv (a b : ℚ) : Except PyError ℚ :=
  if b = 0 then Except.error PyError.zeroDivisionError else Except.ok (a / b)

/-- Counter built and run by `calc_g2` (calc_g2.py lines 83-95): machines
`[ch_sync, ch_1, ch_2]`, `[ch_sync, ch_2]`, `[ch_sync, ch_1]`, in that
order, processed over the whole event stream. -/
def g2Counter (events : List (ℤ × ℚ)) (peak_start_1 peak_end_1
    peak_start_2 peak_end_2 : ℚ) : SrcCC.CoincidenceCounter :=
  SrcCC.process_events
    (SrcCC.mkCoincidenceCounter []
      [({ ch := 0 },
        [{ ch := 1, peak_start := peak_start_1, peak_end := peak_end_1 },
         { ch := 2, peak_start := peak_start_2, peak_end := peak_end_2 }]),
       ({ ch := 0 },
        [{ ch := 2, peak_start := peak_start_2, peak_end := peak_end_2 }]),
       ({ ch := 0 },
        [{ ch := 1, peak_start := peak_start_1, peak_end := peak_end_1 }])])
    events

/-- Fallback machine for positional lookups in the machine list. -/
def defaultMachine : CC.CoincidenceCounterState :=
  CC.CoincidenceCounterState.init { ch := 0 } []

/-- `n_sync = counter.number_of_counts[0]`. -/
def n_sync (events : List (ℤ × ℚ)) (ps1 pe1 ps2 pe2 : ℚ) : ℕ :=
  (g2Counter events ps1 pe1 ps2 pe2).number_of_counts 0

/-- The count `calc_g2` reads under the name key of the machine
over channels 0 and 1, which sits at position 2 of the machine list. -/
def n_sync_1 (events : List (ℤ × ℚ)) (ps1 pe1 ps2 pe2 : ℚ) : ℕ :=
  ((g2Counter events ps1 pe1 ps2 pe2).coincidence_counters.getD 2
    defaultMachine).count

/-- The count of the machine over channels 0 and 2 (position 1). -/
def n_sync_2 (events : List (ℤ × ℚ)) (ps1 pe1 ps2 pe2 : ℚ) : ℕ :=
  ((g2Counter events ps1 pe1 ps2 pe2).coincidence_counters.getD 1
    defaultMachine).count

/-- The count of the machine over channels 0, 1 and 2 (position 0). -/
def n_sync_1_2 (events : List (ℤ × ℚ)) (ps1 pe1 ps2 pe2 : ℚ) : ℕ :=
  ((g2Counter events ps1 pe1 ps2 pe2).coincidence_counters.getD 0
    defaultMachine).count

/-- Translation of `calc_g2` (calc_g2.py lines 78-127).  The function
prints `n_sync_1 / n_sync` and `n_sync_2 / n_sync` before computing
`(n_sync * n_sync_1_2) / (n_sync_1 * n_sync_2)`; each Python `/` can
raise `ZeroDivisionError`, so all three divisions are sequenced here. -/
def calc_g2 (events : List (ℤ × ℚ)) (peak_start_1 peak_end_1
    peak_start_2 peak_end_2 : ℚ) : Except PyError ℚ :=
  match pydiv (n_sync_1 events peak_start_1 peak_end_1 peak_start_2 peak_end_2 : ℚ)
      (n_sync events peak_start_1 peak_end_1 peak_start_2 peak_end_2 : ℚ) with
  | Except.error e => Except.error e
  | Except.ok _ =>
    match pydiv (n_sync_2 events peak_start_1 peak_end_1 peak_start_2 peak_end_2 : ℚ)
        (n_sync events peak_start_1 peak_end_1 peak_start_2 peak_end_2 : ℚ) with
    | Except.error e => Except.error e
    | Except.ok _ =>
      pydiv
        ((n_sync events peak_start_1 peak_end_1 peak_start_2 peak_end_2 : ℚ)
          * (n_sync_1_2 events peak_start_1 peak_end_1 peak_start_2 peak_end_2 : ℚ))
        ((n_sync_1 events peak_start_1 peak_end_1 peak_start_2 peak_end_2 : ℚ)
          * (n_sync_2 events peak_start_1 peak_end_1 peak_start_2 peak_end_2 : ℚ))

end G2

/-- C6: `calc_g2` returns `(N * N12) / (N1 * N2)` whenever `N1` and `N2`
are nonzero, and fails (with Python's `ZeroDivisionError`, the concrete
form of the abstract `InsufficientData` failure) when `N1 = 0` or
`N2 = 0`; on `N = 1000`, `N1 = N2 = 100`, `N12 = 5` the ratio is `1/2`. -/
theorem calc_g2_spec (events : List (ℤ × ℚ)) (ps1 pe1 ps2 pe2 : ℚ) :
    ((G2.n_sync_1 events ps1 pe1 ps2 pe2 = 0 ∨ G2.n_sync_2 events ps1 pe1 ps2 pe2 = 0) →
      G2.calc_g2 events ps1 pe1 ps2 pe2
        = Except.error G2.PyError.zeroDivisionError)
    ∧ (G2.n_sync_1 events ps1 pe1 ps2 pe2 ≠ 0 → G2.n_sync_2 events ps1 pe1 ps2 pe2 ≠ 0 →
      G2.calc_g2 events ps1 pe1 ps2 pe2
        = Except.ok (((G2.n_sync events ps1 pe1 ps2 pe2 : ℚ)
            * (G2.n_sync_1_2 events ps1 pe1 ps2 pe2 : ℚ))
          / ((G2.n_sync_1 events ps1 pe1 ps2 pe2 : ℚ)
            * (G2.n_sync_2 events ps1 pe1 ps2 pe2 : ℚ))))
    ∧ G2.pydiv ((1000 : ℚ) * 5) ((100 : ℚ) * 100) = Except.ok (1 / 2) := by
  refine ⟨?_, ?_, ?_⟩
  · intro h12
    unfold G2.calc_g2
    by_cases hn : (G2.n_sync events ps1 pe1 ps2 pe2 : ℚ) = 0
    · rw [G2.pydiv, if_pos hn]
    · rw [G2.pydiv, if_neg hn, G2.pydiv, if_neg hn]
      have h0 : (G2.n_sync_1 events ps1 pe1 ps2 pe2 : ℚ)
          * (G2.n_sync_2 events ps1 pe1 ps2 pe2 : ℚ) = 0 := by
        rcases h12 with h | h <;> rw [h] <;> simp
      rw [G2.pydiv, if_pos h0]
  · intro h1 h2
    have hle : G2.n_sync_1 events ps1 pe1 ps2 pe2 ≤ G2.n_sync events ps1 pe1 ps2 pe2 := by
      obtain ⟨m, hm, hbch, -, -, -, -, -, hcnt⟩ :=
        SrcCC.srcGoodAt_events _ 2 _ events
          (SrcCC.srcGoodAt_mk []
            [({ ch := 0 },
              [{ ch := 1, peak_start := ps1, peak_end := pe1 },
               { ch := 2, peak_start := ps2, peak_end := pe2 }]),
             ({ ch := 0 },
              [{ ch := 2, peak_start := ps2, peak_end := pe2 }]),
             ({ ch := 0 },
              [{ ch := 1, peak_start := ps1, peak_end := pe1 }])] 2
            (by norm_num) (by simp))
      have hmach : (G2.g2Counter events ps1 pe1 ps2 pe2).coincidence_counters.getD 2
          G2.defaultMachine = m := by
        rw [List.getD_eq_getElem?_getD,
          show (G2.g2Counter events ps1 pe1 ps2 pe2).coincidence_counters[2]?
            = some m from hm]
        rfl
      show (((G2.g2Counter events ps1 pe1 ps2 pe2).coincidence_counters.getD 2
          G2.defaultMachine).count) ≤ _
      rw [hmach]
      exact le_trans (Nat.le_add_right _ _) hcnt
    have hn : (G2.n_sync events ps1 pe1 ps2 pe2 : ℚ) ≠ 0 :=
      Nat.cast_ne_zero.mpr (by omega)
    unfold G2.calc_g2
    rw [G2.pydiv, if_neg hn, G2.pydiv, if_neg hn, G2.pydiv,
      if_neg (mul_ne_zero (Nat.cast_ne_zero.mpr h1) (Nat.cast_ne_zero.mpr h2))]
  · rw [G2.pydiv, if_neg (by norm_num : ¬((100 : ℚ) * 100 = 0))]
    norm_num

/-- Witness for C6: on the empty stream all counts are zero, so `calc_g2`
fails with the division error. -/
theorem calc_g2_spec_witness :
    G2.calc_g2 [] 1 2 1 2 = Except.error G2.PyError.zeroDivisionError :=
  (calc_g2_spec [] 1 2 1 2).1 (Or.inl rfl)

namespace SrcCC

/-- Run one `HistogramState` over a list of `(ch, truetime)` events in
order. -/
def runHistogram (h : HistogramState) (events : List (ℤ × ℚ)) :
    HistogramState :=
  events.foldl (fun h e => h.process e.1 e.2) h

theorem hist_process_eq (h : HistogramState) (ch : ℤ) (t : ℚ) :
    h.process ch t =
      if ch = h.base_ch then
        { h with last_truetime := t, base_start := t }
      else
        match h.timediffs ch with
        | some l =>
            { h with last_truetime := t, timediffs := fun d =>
                if d = ch then some (l ++ [t - h.base_start])
                else h.timediffs d }
        | none => { h with last_truetime := t } := by
  obtain ⟨bc, chs, bs, lt, td⟩ := h
  unfold HistogramState.process
  dsimp only

theorem hist_process_base_ch (h : HistogramState) (ch : ℤ) (t : ℚ) :
    (h.process ch t).base_ch = h.base_ch := by
  rw [hist_process_eq]
  repeat' split
  all_goals rfl

theorem hist_process_base_start (h : HistogramState) (ch : ℤ) (t : ℚ)
    (hne : ch ≠ h.base_ch) : (h.process ch t).base_start = h.base_start := by
  rw [hist_process_eq, if_neg hne]
  split
  · rfl
  · rfl

theorem hist_process_timediffs_isSome (h : HistogramState) (ch : ℤ) (t : ℚ)
    (d : ℤ) (hs : (h.timediffs d).isSome) :
    ((h.process ch t).timediffs d).isSome := by
  rw [hist_process_eq]
  split
  · exact hs
  · split
    · by_cases hd : d = ch
      · simp [hd]
      · simpa [hd] using hs
    · exact hs

/-- Processing a stream with no base-channel event leaves `base_ch` and
`base_start` untouched and keeps every present time-difference list
present. -/
theorem runHistogram_no_base (pre : List (ℤ × ℚ)) (h : HistogramState)
    (hpre : ∀ e ∈ pre, e.1 ≠ h.base_ch) :
    (runHistogram h pre).base_ch = h.base_ch
    ∧ (runHistogram h pre).base_start = h.base_start
    ∧ ∀ d, (h.timediffs d).isSome → ((runHistogram h pre).timediffs d).isSome := by
  induction pre generalizing h with
  | nil => exact ⟨rfl, rfl, fun d hs => hs⟩
  | cons e es ih =>
    have hne : e.1 ≠ h.base_ch := hpre e (List.mem_cons_self e es)
    have hbc : (h.process e.1 e.2).base_ch = h.base_ch :=
      hist_process_base_ch h e.1 e.2
    have step := ih (h.process e.1 e.2)
      (fun x hx => by rw [hbc]; exact hpre x (List.mem_cons_of_mem e hx))
    refine ⟨?_, ?_, ?_⟩
    · show (runHistogram (h.process e.1 e.2) es).base_ch = _
      rw [step.1, hbc]
    · show (runHistogram (h.process e.1 e.2) es).base_start = _
      rw [step.2.1, hist_process_base_start h e.1 e.2 hne]
    · intro d hs
      show ((runHistogram (h.process e.1 e.2) es).timediffs d).isSome
      exact step.2.2 d (hist_process_timediffs_isSome h e.1 e.2 d hs)

end SrcCC

/-- C10: `HistogramState` initialises `base_start` to 0 and no non-base
event moves it, so for every stream, a target-channel event processed
before any base-channel event has occurred is recorded in that channel's
time-difference list with its absolute timestamp `truetime - 0` as the
difference, rather than being skipped. -/
theorem histogram_initial_base_start
    (base_ch : ℤ) (channels : List ℤ) (pre : List (ℤ × ℚ)) (ch : ℤ) (t : ℚ)
    (hpre : ∀ e ∈ pre, e.1 ≠ base_ch)
    (hne : ch ≠ base_ch) (hmem : ch ∈ channels) :
    (SrcCC.HistogramState.init base_ch channels).base_start = 0
    ∧ (SrcCC.runHistogram (SrcCC.HistogramState.init base_ch channels)
        pre).base_start = 0
    ∧ ∃ l, (SrcCC.runHistogram (SrcCC.HistogramState.init base_ch channels)
          pre).timediffs ch = some l
        ∧ ((SrcCC.runHistogram (SrcCC.HistogramState.init base_ch channels)
            pre).process ch t).timediffs ch = some (l ++ [t]) := by
  obtain ⟨hbc, hbs, hsome⟩ := SrcCC.runHistogram_no_base pre
    (SrcCC.HistogramState.init base_ch channels) hpre
  have hs0 : ((SrcCC.HistogramState.init base_ch channels).timediffs ch).isSome := by
    simp [SrcCC.HistogramState.init, hmem]
  obtain ⟨l, hl⟩ := Option.isSome_iff_exists.mp (hsome ch hs0)
  refine ⟨rfl, by rw [hbs]; rfl, l, hl, ?_⟩
  rw [SrcCC.hist_process_eq, if_neg (fun he => hne (he.trans hbc))]
  simp only [hl]
  have hbs0 : (SrcCC.runHistogram (SrcCC.HistogramState.init base_ch channels)
      pre).base_start = 0 := hbs
  simp [hbs0, sub_zero]

/-- Witness for C10: after a prior non-base event on channel 2, a
channel-1 event at time 7 is still recorded with the difference 7. -/
theorem histogram_initial_base_start_witness :
    (SrcCC.HistogramState.init 0 [1, 2]).base_start = 0
    ∧ (SrcCC.runHistogram (SrcCC.HistogramState.init 0 [1, 2])
        [(2, 5)]).base_start = 0
    ∧ ∃ l, (SrcCC.runHistogram (SrcCC.HistogramState.init 0 [1, 2])
          [(2, 5)]).timediffs 1 = some l
        ∧ ((SrcCC.runHistogram (SrcCC.HistogramState.init 0 [1, 2])
            [(2, 5)]).process 1 7).timediffs 1 = some (l ++ [7]) :=
  histogram_initial_base_start 0 [1, 2] [(2, 5)] 1 7
    (by decide) (by decide) (by decide)

namespace Dev

/-- One driver iteration's responses inside `Device.start_measurement`:
the `get_flags` bits, the words `read_fifo` returns (`num_records` is
their count), and `ctc_status`. -/
structure DevIter where
  flags : ℕ
  fifo : List ℕ
  ctc : ℕ

/-- Items `start_measurement` publishes on `self.queue`. -/
inductive MeasMessage where
  | measStart
  | batch (records : List ℕ)
  | measEnd
deriving DecidableEq, Repr

/-- The `while True` poll loop of `Device.start_measurement`
(device.py lines 125-140), replayed against a script of driver responses,
one `DevIter` per iteration.  `flags & 2` is bit 1, i.e.
`flags / 2 % 2 = 1`; when set the code prints, stops the device and puts
a `MeasEndMarker` — and then falls through to `read_fifo` in the same
iteration, with no `break` and no raised exception.  Returns the queue
items the loop publishes, the number of `stop_measurement` calls made
inside it, and whether it exited via `ctc_status` (`false` when the
script ran out with the loop still running). -/
def pollLoop : List DevIter → List MeasMessage × ℕ × Bool
  | [] => ([], 0, false)
  | r :: rs =>
    let head : List MeasMessage :=
      if r.flags / 2 % 2 = 1 then [MeasMessage.measEnd] else []
    let stops : ℕ := if r.flags / 2 % 2 = 1 then 1 else 0
    if r.fifo.length > 0 then
      let rest := pollLoop rs
      (head ++ [MeasMessage.batch r.fifo] ++ rest.1, stops + rest.2.1, rest.2.2)
    else if r.ctc > 0 then
      (head, stops, true)
    else
      let rest := pollLoop rs
      (head ++ rest.1, stops + rest.2.1, rest.2.2)

/-- Translation of `Device.start_measurement`: publish `MeasStartMarker`,
run the poll loop, and on loop exit call `stop_measurement` once more and
publish another `MeasEndMarker`. -/
def start_measurement (script : List DevIter) : List MeasMessage × ℕ × Bool :=
  let run := pollLoop script
  if run.2.2 then
    (MeasMessage.measStart :: (run.1 ++ [MeasMessage.measEnd]), run.2.1 + 1, true)
  else
    (MeasMessage.measStart :: run.1, run.2.1, false)

end Dev

/-- C7 failing evaluation: when `get_flags` reports the FIFO-overrun bit
at iteration 3 after two published batches, `start_measurement` puts a
`MeasEndMarker` and stops the device but neither breaks out of the loop
nor raises `FifoOverrunException` (the model's total return value shows
no failure path exists in the code).  The loop keeps polling: a batch
still in the FIFO is published after the `MeasEnd`, and the eventual
`ctc_status` exit publishes a second `MeasEnd`, so the consumer sees
`MeasStart, Batch, Batch, MeasEnd, MeasEnd` (first script) or even a
batch between two `MeasEnd`s (second script), not the claimed single
`MeasEnd` with a `FifoOverrun` failure. -/
theorem device_overrun_failing_eval :
    Dev.start_measurement [⟨0, [17], 0⟩, ⟨0, [23], 0⟩, ⟨2, [], 1⟩]
      = ([Dev.MeasMessage.measStart, Dev.MeasMessage.batch [17],
          Dev.MeasMessage.batch [23], Dev.MeasMessage.measEnd,
          Dev.MeasMessage.measEnd], 2, true)
    ∧ Dev.start_measurement
        [⟨0, [17], 0⟩, ⟨0, [23], 0⟩, ⟨2, [31], 0⟩, ⟨0, [], 1⟩]
      = ([Dev.MeasMessage.measStart, Dev.MeasMessage.batch [17],
          Dev.MeasMessage.batch [23], Dev.MeasMessage.measEnd,
          Dev.MeasMessage.batch [31], Dev.MeasMessage.measEnd], 2, true) := by
  exact ⟨rfl, rfl⟩

namespace HT2

/-- Shared state of the two `readHT2` loops: the `truetime` and
`oflcorrection` variables (time-tag units) and the per-channel event
lists `tmp`.  Timestamps are stored multiplied by 0.2 (`globRes`-derived
constant), modelled exactly as `1/5 : ℚ`. -/
structure HT2State where
  truetime : ℕ
  oflcorrection : ℕ
  events : ℕ → List ℚ

/-- Loop entry state: counters zero and 65 empty channel lists. -/
def initState : HT2State :=
  { truetime := 0, oflcorrection := 0, events := fun _ => [] }

/-- `tmp[c].append(x)`. -/
def appendEvent (f : ℕ → List ℚ) (c : ℕ) (x : ℚ) : ℕ → List ℚ :=
  fun d => if d = c then f d ++ [x] else f d

/-- `T2WRAPAROUND_V1` of both parser files. -/
def T2WRAPAROUND_V1 : ℕ := 33552000

/-- `T2WRAPAROUND_V2` of both parser files. -/
def T2WRAPAROUND_V2 : ℕ := 33554432

end HT2

namespace MhFile

/-- One iteration of `readHT2` in src/src/mh_file_parser/parser.py
(lines 53-74).  In this draft the `tmp[0].append(truetime * 0.2)` sits
OUTSIDE the `if channel == 0` test, so every special record — overflow
records included — appends an event to channel 0. -/
def readHT2Step (version : ℕ) (st : HT2.HT2State) (data : ℕ) :
    HT2.HT2State :=
  let special := data / 2 ^ 31 % 2
  let channel := data / 2 ^ 25 % 64
  let timetag := data % 2 ^ 25
  if special = 1 then
    let ofl :=
      if channel = 0x3F then
        if version = 1 then st.oflcorrection + HT2.T2WRAPAROUND_V1
        else if timetag = 0 then st.oflcorrection + HT2.T2WRAPAROUND_V2
        else st.oflcorrection + HT2.T2WRAPAROUND_V2 * timetag
      else st.oflcorrection
    let tt := if channel = 0 then ofl + timetag else st.truetime
    { truetime := tt, oflcorrection := ofl,
      events := HT2.appendEvent st.events 0 ((tt : ℚ) * (1 / 5)) }
  else
    let tt := st.oflcorrection + timetag
    { truetime := tt, oflcorrection := st.oflcorrection,
      events := HT2.appendEvent st.events (channel + 1) ((tt : ℚ) * (1 / 5)) }

/-- The `readHT2` record loop of src/src/mh_file_parser/parser.py over a
list of raw words. -/
def readHT2 (version : ℕ) (words : List ℕ) : HT2.HT2State :=
  words.foldl (readHT2Step version) HT2.initState

end MhFile

namespace Ptu

/-- One iteration of `readHT2` in
src/src/multiharp_toolkit/ptu_parser.py (lines 102-127), where the
`tmp[0].append` sits INSIDE the `if channel == 0` branch: overflow and
other special records append nothing. -/
def readHT2Step (version : ℕ) (st : HT2.HT2State) (data : ℕ) :
    HT2.HT2State :=
  let special := data / 2 ^ 31 % 2
  let channel := data / 2 ^ 25 % 64
  let timetag := data % 2 ^ 25
  if special = 1 then
    let ofl :=
      if channel = 0x3F then
        if version = 1 then st.oflcorrection + HT2.T2WRAPAROUND_V1
        else if timetag = 0 then st.oflcorrection + HT2.T2WRAPAROUND_V2
        else st.oflcorrection + HT2.T2WRAPAROUND_V2 * timetag
      else st.oflcorrection
    if channel = 0 then
      let tt := ofl + timetag
      { truetime := tt, oflcorrection := ofl,
        events := HT2.appendEvent st.events 0 ((tt : ℚ) * (1 / 5)) }
    else
      { truetime := st.truetime, oflcorrection := ofl, events := st.events }
  else
    let tt := st.oflcorrection + timetag
    { truetime := tt, oflcorrection := st.oflcorrection,
      events := HT2.appendEvent st.events (channel + 1) ((tt : ℚ) * (1 / 5)) }

/-- The `readHT2` record loop of src/src/multiharp_toolkit/ptu_parser.py
over a list of raw words. -/
def readHT2 (version : ℕ) (words : List ℕ) : HT2.HT2State :=
  words.foldl (readHT2Step version) HT2.initState

end Ptu

/-- C8 failing evaluation: on the single overflow record `0xFE000001`
(special = 1, channel = 0x3F, tag = 1), `readHT2` of
src/src/mh_file_parser/parser.py appends an event (the stale
`truetime * 0.2 = 0`) to channel 0, while `readHT2` of ptu_parser.py and
the `T2RecordQueueProcessor` decoder emit nothing, as the claim and the
spec require. -/
theorem overflow_emission_failing_eval :
    (MhFile.readHT2 2 [0xFE000001]).events 0 = [0]
    ∧ (∀ c : ℕ, (Ptu.readHT2 2 [0xFE000001]).events c = [])
    ∧ (Tttr.process_raw_records {} [0xFE000001]).2 = [] := by
  refine ⟨?_, ?_, ?_⟩
  · show HT2.appendEvent HT2.initState.events 0 (((0 : ℕ) : ℚ) * (1 / 5)) 0 = [0]
    norm_num [HT2.appendEvent, HT2.initState]
  · intro c
    rfl
  · rfl

namespace Ptu

/-- Tag-type codes of ptu_parser.py: 4 big-endian bytes reinterpreted as
a signed 32-bit integer (`struct.unpack` of the hex constants named in
the source). -/
def tyEmpty8 : ℤ := 0xFFFF0008 - 2 ^ 32

/-- `tyBool8 = 0x00000008`. -/
def tyBool8 : ℤ := 0x00000008

/-- `tyInt8 = 0x10000008`. -/
def tyInt8 : ℤ := 0x10000008

/-- `tyBitSet64 = 0x11000008`. -/
def tyBitSet64 : ℤ := 0x11000008

/-- `tyColor8 = 0x12000008`. -/
def tyColor8 : ℤ := 0x12000008

/-- `tyFloat8 = 0x20000008`. -/
def tyFloat8 : ℤ := 0x20000008

/-- `tyTDateTime = 0x21000008`. -/
def tyTDateTime : ℤ := 0x21000008

/-- `tyFloat8Array = 0x2001FFFF`. -/
def tyFloat8Array : ℤ := 0x2001FFFF

/-- `tyAnsiString = 0x4001FFFF`. -/
def tyAnsiString : ℤ := 0x4001FFFF

/-- `tyWideString = 0x4002FFFF`. -/
def tyWideString : ℤ := 0x4002FFFF

/-- `tyBinaryBlob = 0xFFFFFFFF`, i.e. -1 as a signed 32-bit value. -/
def tyBinaryBlob : ℤ := 0xFFFFFFFF - 2 ^ 32

/-- Failures of the header entry reader. -/
inductive TagError where
  | unknownTagType (code : ℤ)
  | unexpectedEOF
deriving DecidableEq, Repr

/-- Value of 8 little-endian bytes (`struct.unpack` of `<q`; header
lengths are non-negative in every well-formed file, so `ℕ` suffices). -/
def le64 (bytes : List ℕ) : ℕ :=
  bytes.foldr (fun b acc => b + 256 * acc) 0

/-- `struct.unpack(fmt, inputfile.read(n))`: consumes exactly `n` bytes
or fails (a short read makes `struct.unpack` raise). -/
def readExact (n : ℕ) (s : List ℕ) : Except TagError (List ℕ × List ℕ) :=
  if n ≤ s.length then Except.ok (s.take n, s.drop n)
  else Except.error TagError.unexpectedEOF

/-- Payload consumption of one header-entry branch of `parse`
(ptu_parser.py lines 156-212), with the stream positioned just after the
4-byte type code; returns what remains of the stream.  The branches are
in source order.  Fixed 8-byte types unpack 8 bytes; `tyEmpty8` merely
`read`s 8 bytes (no unpack, so no error on a short read);
`tyAnsiString`/`tyWideString` unpack an 8-byte length then `read` that
many payload bytes; `tyFloat8Array` and `tyBinaryBlob` unpack ONLY the
8-byte length and never skip the payload; an unrecognized code aborts
the parse (`print` + `exit`). -/
def consumeTagPayload (tagTyp : ℤ) (s : List ℕ) :
    Except TagError (List ℕ) :=
  if tagTyp = tyEmpty8 then Except.ok (s.drop 8)
  else if tagTyp = tyBool8 then (readExact 8 s).map Prod.snd
  else if tagTyp = tyInt8 then (readExact 8 s).map Prod.snd
  else if tagTyp = tyBitSet64 then (readExact 8 s).map Prod.snd
  else if tagTyp = tyColor8 then (readExact 8 s).map Prod.snd
  else if tagTyp = tyFloat8 then (readExact 8 s).map Prod.snd
  else if tagTyp = tyFloat8Array then (readExact 8 s).map Prod.snd
  else if tagTyp = tyTDateTime then (readExact 8 s).map Prod.snd
  else if tagTyp = tyAnsiString then
    (readExact 8 s).map (fun p => p.2.drop (le64 p.1))
  else if tagTyp = tyWideString then
    (readExact 8 s).map (fun p => p.2.drop (le64 p.1))
  else if tagTyp = tyBinaryBlob then (readExact 8 s).map Prod.snd
  else Except.error (TagError.unknownTagType tagTyp)

end Ptu

/-- C9 failing evaluation: on a length-prefixed entry whose 8-byte
little-endian length field is 8 followed by 8 payload bytes, the
`tyAnsiString` branch consumes length and payload (remaining stream
empty), but the `tyFloat8Array` and `tyBinaryBlob` branches consume only
the length field and leave all 8 payload bytes in the stream, to be
misread as the next header entry; an unrecognized type code (99) does
fail the file. -/
theorem ptu_tag_payload_failing_eval :
    Ptu.consumeTagPayload Ptu.tyFloat8Array
        ([8, 0, 0, 0, 0, 0, 0, 0] ++ [1, 2, 3, 4, 5, 6, 7, 8])
      = Except.ok [1, 2, 3, 4, 5, 6, 7, 8]
    ∧ Ptu.consumeTagPayload Ptu.tyBinaryBlob
        ([8, 0, 0, 0, 0, 0, 0, 0] ++ [1, 2, 3, 4, 5, 6, 7, 8])
      = Except.ok [1, 2, 3, 4, 5, 6, 7, 8]
    ∧ Ptu.consumeTagPayload Ptu.tyAnsiString
        ([8, 0, 0, 0, 0, 0, 0, 0] ++ [1, 2, 3, 4, 5, 6, 7, 8])
      = Except.ok []
    ∧ Ptu.consumeTagPayload Ptu.tyWideString
        ([8, 0, 0, 0, 0, 0, 0, 0] ++ [1, 2, 3, 4, 5, 6, 7, 8])
      = Except.ok []
    ∧ Ptu.consumeTagPayload 99
        ([8, 0, 0, 0, 0, 0, 0, 0] ++ [1, 2, 3, 4, 5, 6, 7, 8])
      = Except.error (Ptu.TagError.unknownTagType 99) := by
  refine ⟨rfl, rfl, rfl, rfl, rfl⟩

/-- Machine state mid-tuple (just after a base event at time 0) used by the
C3 witness. -/
def c3WitnessMachine : CC.CoincidenceCounterState :=
  { base_ch := { ch := 0 }
    length := 3
    channels := [{ ch := 0 },
      { ch := 1, peak_start := 0, peak_end := 1 },
      { ch := 2, peak_start := 2, peak_end := 3 }]
    i := 1
    base_start := 0
    last_truetime := 0
    count := 0 }

/-- Witness for C3: boundary delay `t - base_start = peak_end = 1` on the
expected channel advances neither the progress index nor the count. -/
theorem coincidence_window_strict_witness :
    (c3WitnessMachine.process 1 1).i = c3WitnessMachine.i
    ∧ (c3WitnessMachine.process 1 1).count = c3WitnessMachine.count := by
  have h := coincidence_window_strict.1 c3WitnessMachine 1 1 (by decide) (by decide)
  have hrhs : ¬ (1 = (c3WitnessMachine.channels.getD c3WitnessMachine.i
        CC.defaultChannelInfo).ch
      ∧ (c3WitnessMachine.channels.getD c3WitnessMachine.i
          CC.defaultChannelInfo).peak_start < 1 - c3WitnessMachine.base_start
      ∧ 1 - c3WitnessMachine.base_start < (c3WitnessMachine.channels.getD
          c3WitnessMachine.i CC.defaultChannelInfo).peak_end) := by
    intro hr
    have h3 := hr.2.2
    norm_num [c3WitnessMachine, List.getD] at h3
  have hnl : ¬ _ := fun hl => absurd (h.mp hl) hrhs
  exact ⟨by_contra fun hne => hnl (Or.inl hne),
         by_contra fun hne => hnl (Or.inr hne)⟩
